import Mathlib

/-
  Verification development for the ai-instructions CLI:
  stack detection, rule resolution, and content merge.

  Go strings are modelled as lists of characters so that every operation
  is executable and decidable. Go maps appear as association lists
  (keys are unique in the original data, so first-match lookup coincides
  with map lookup).
-/

/-- Go strings are modelled as lists of characters. -/
abbrev Str := List Char

/-- Convert a Lean string literal to the character-list model. -/
def str (s : String) : Str := s.data

/- ===== String helpers mirroring the Go standard library ===== -/

/-- strings.Split(v, sep)[0] for a non-empty sep: the segment before the
first occurrence of sep, or the whole string when sep does not occur. -/
def takeBeforeSub (sep : Str) : Str → Str
  | [] => []
  | c :: rest =>
    if sep.isPrefixOf (c :: rest) then []
    else c :: takeBeforeSub sep rest

/-- strings.Split(s, sep) for a single-character separator. -/
def splitOnChar (sep : Char) : Str → List Str
  | [] => [[]]
  | c :: rest =>
    if c = sep then [] :: splitOnChar sep rest
    else
      match splitOnChar sep rest with
      | [] => [[c]]
      | p :: ps => (c :: p) :: ps

/-- strings.TrimSpace (leading and trailing whitespace removed; the
model covers the ASCII whitespace characters, which are the only ones
the manifests and templates contain). -/
def trimSpace (l : Str) : Str :=
  ((l.dropWhile Char.isWhitespace).reverse.dropWhile Char.isWhitespace).reverse

/-- strings.Join(parts, sep). -/
def joinWith (sep : Str) : List Str → Str
  | [] => []
  | [x] => x
  | x :: rest => x ++ sep ++ joinWith sep rest

/-- strings.HasSuffix. -/
def endsWithStr (l suf : Str) : Bool :=
  decide (suf.length ≤ l.length) && (l.drop (l.length - suf.length) == suf)

/-- strings.TrimSuffix. -/
def trimSuffixStr (l suf : Str) : Str :=
  if endsWithStr l suf then l.take (l.length - suf.length) else l

/-- strings.TrimPrefix. -/
def trimPrefixStr (l pre : Str) : Str :=
  if pre.isPrefixOf l then l.drop pre.length else l

/-- One string occurs somewhere inside another (contiguously). -/
def strContains (big small : Str) : Prop :=
  ∃ pre post, big = pre ++ small ++ post

/- ===== normalizeVersion (cmd/generate.go:342-362, identical in the
   embedded-rules generator variant) ===== -/

/-- The character class accepted by the normalizeVersion scan loop:
ASCII digits and the dot. -/
def isVerChar (c : Char) : Bool := (('0' ≤ c) && (c ≤ '9')) || c = '.'

/-- The cutset of strings.TrimLeft(v, "^~><= "). -/
def rangeOpChar (c : Char) : Bool :=
  c = '^' || c = '~' || c = '>' || c = '<' || c = '=' || c = ' '

/-- normalizeVersion: trim space, keep only the part before a logical-OR
alternative and before a space, strip leading range operators, then take
the longest leading run of digits-and-dots. -/
def normalizeVersion (v : Str) : Str :=
  let v1 := trimSpace v
  if v1 = [] then []
  else
    let v2 := takeBeforeSub (str "||") v1
    let v3 := takeBeforeSub (str " ") v2
    let v4 := v3.dropWhile rangeOpChar
    v4.takeWhile isVerChar

/-- parts[0] of strings.Split(norm, "."), as computed by addRulesFor and
addAgentFor. -/
def versionMajor (norm : Str) : Str := (splitOnChar '.' norm).headD []

/-- parts[1] of strings.Split(norm, ".") when present, else empty, as
computed by addRulesFor and addAgentFor. -/
def versionMinor (norm : Str) : Str := (splitOnChar '.' norm).getD 1 []

/-- Helper: every character of a takeWhile result satisfies the test. -/
theorem mem_takeWhile_sat {p : Char → Bool} :
    ∀ (l : Str) (c : Char), c ∈ l.takeWhile p → p c = true := by
  intro l
  induction l with
  | nil => intro c h; simp [List.takeWhile] at h
  | cons a rest ih =>
    intro c h
    simp only [List.takeWhile] at h
    cases hp : p a with
    | false => rw [hp] at h; simp at h
    | true =>
      rw [hp] at h
      rcases List.mem_cons.mp h with h1 | h2
      · subst h1; exact hp
      · exact ih c h2

/-- Helper: normalizeVersion output consists only of digits and dots. -/
theorem normalizeVersion_chars (v : Str) (c : Char)
    (h : c ∈ normalizeVersion v) : isVerChar c = true := by
  unfold normalizeVersion at h
  by_cases h1 : trimSpace v = []
  · simp [h1] at h
  · simp only [h1, if_neg, ite_false] at h
    exact mem_takeWhile_sat _ c h

/-- C4: normalizeVersion maps each of the range-style inputs to a string
whose first dot-delimited component is 8 and whose second is 2; the
range operators are stripped, everything after a space alternative is
discarded, and the scan stops at the first character that is neither an
ASCII digit nor a dot; the output never contains any other character. -/
theorem normalizeVersion_examples :
    (normalizeVersion (str "^8.2.1") = str "8.2.1"
      ∧ versionMajor (normalizeVersion (str "^8.2.1")) = str "8"
      ∧ versionMinor (normalizeVersion (str "^8.2.1")) = str "2")
  ∧ (normalizeVersion (str ">=8.2 <9") = str "8.2"
      ∧ versionMajor (normalizeVersion (str ">=8.2 <9")) = str "8"
      ∧ versionMinor (normalizeVersion (str ">=8.2 <9")) = str "2")
  ∧ (normalizeVersion (str "8.2.x") = str "8.2."
      ∧ versionMajor (normalizeVersion (str "8.2.x")) = str "8"
      ∧ versionMinor (normalizeVersion (str "8.2.x")) = str "2")
  ∧ normalizeVersion (str "^8.2||^9.0") = str "8.2"
  ∧ (∀ (v : Str) (c : Char), c ∈ normalizeVersion v → isVerChar c = true) := by
  refine ⟨by decide, by decide, by decide, by decide, normalizeVersion_chars⟩

/-- C4 witness: the last clause instantiated at a concrete version. -/
theorem normalizeVersion_examples_witness :
    isVerChar '8' = true :=
  normalizeVersion_examples.2.2.2.2 (str "8.2.1") '8' (by decide)

/- ===== Stack detection (internal/detect) ===== -/

/-- DetectedStack (internal/detect, type declaration file): one version
string per recognized technology; empty means not detected. -/
structure DetectedStack where
  PHP : Str
  Laravel : Str
  Nuxt : Str
  Vue : Str
  NuxtUI : Str
deriving DecidableEq

/-- The all-empty stack a scan starts from. -/
def emptyStack : DetectedStack := ⟨[], [], [], [], []⟩

/-- composerJSON (internal/detect/composer reader): the require map and
the optional config.platform map. An absent platform map (nil in the
original) is modelled as none. -/
structure ComposerJSON where
  require : List (Str × Str)
  platform : Option (List (Str × Str))

/-- packageJSON (internal/detect/js.go): dependencies and
devDependencies maps. -/
structure PackageJSON where
  dependencies : List (Str × Str)
  devDependencies : List (Str × Str)

/-- lockFile (internal/detect/js.go): the dependencies map carries a
version per package; the packages map carries a version and a nested
dependencies map (the nested map is never consulted). -/
structure LockDep where
  version : Str

structure LockPkg where
  version : Str
  dependencies : List (Str × Str)

structure LockFile where
  dependencies : List (Str × LockDep)
  packages : List (Str × LockPkg)

/-- Modelled from the spec: detectFromComposerLock is dispatched by
DetectStack (internal/detect/detect.go) but its definition is not among
the provided sources. Per the spec, a lock-file reader resolves pinned
exact versions for the composer-ecosystem technologies. -/
structure ComposerLock where
  phpVersion : Option Str
  laravelVersion : Option Str

/-- The parse outcome stored for a file in the modelled tree: parsed
content of one of the marker schemas, a read failure that is not
not-found, or bytes that fail to unmarshal. -/
inductive FileData where
  | composerData (c : ComposerJSON)
  | packageData (p : PackageJSON)
  | lockData (l : LockFile)
  | composerLockData (c : ComposerLock)
  | unreadableData
  | badData

/-- A directory entry of the modelled project tree. The entry list of a
directory is kept in the (lexical) order filepath.WalkDir visits it.
badDir is a subdirectory whose listing fails at walk time. -/
inductive Entry where
  | file (name : Str) (data : FileData)
  | dir (name : Str) (sub : List Entry)
  | badDir (name : Str)

/-- The name of an entry. -/
def entryName : Entry → Str
  | .file n _ => n
  | .dir n _ => n
  | .badDir n => n

/-- os.ReadFile of dir/name, resolved against the entry list of the
directory: the first entry with a matching name. -/
def findEntry (es : List Entry) (n : Str) : Option Entry :=
  es.find? (fun e => entryName e == n)

def composerJsonName : Str := str "composer.json"
def composerLockName : Str := str "composer.lock"
def packageJsonName : Str := str "package.json"
def packageLockName : Str := str "package-lock.json"

/-- Set the PHP field from an optional finding, only when still empty. -/
def stepPHP (o : Option Str) (s : DetectedStack) : DetectedStack :=
  if s.PHP = [] then
    match o with
    | some v => { s with PHP := v }
    | none => s
  else s

/-- Set the Laravel field from an optional finding, only when still
empty. -/
def stepLaravel (o : Option Str) (s : DetectedStack) : DetectedStack :=
  if s.Laravel = [] then
    match o with
    | some v => { s with Laravel := v }
    | none => s
  else s

/-- Set the Nuxt field from an optional finding, only when still empty. -/
def stepNuxt (o : Option Str) (s : DetectedStack) : DetectedStack :=
  if s.Nuxt = [] then
    match o with
    | some v => { s with Nuxt := v }
    | none => s
  else s

/-- Set the Vue field from an optional finding, only when still empty. -/
def stepVue (o : Option Str) (s : DetectedStack) : DetectedStack :=
  if s.Vue = [] then
    match o with
    | some v => { s with Vue := v }
    | none => s
  else s

/-- Set the NuxtUI field from an optional finding, only when still
empty. -/
def stepNuxtUI (o : Option Str) (s : DetectedStack) : DetectedStack :=
  if s.NuxtUI = [] then
    match o with
    | some v => { s with NuxtUI := v }
    | none => s
  else s

/-- The mutation part of detectFromComposer: config.platform php wins
over require php (the second check sees the field already filled), then
laravel/framework; each field set only when still empty. -/
def applyComposer (c : ComposerJSON) (s : DetectedStack) : DetectedStack :=
  stepLaravel (c.require.lookup (str "laravel/framework"))
    (stepPHP (c.require.lookup (str "php"))
      (stepPHP (c.platform.bind (fun plat => plat.lookup (str "php"))) s))

/-- The get closure of detectFromPackageJson: dependencies first, then
devDependencies. -/
def pkgGet (p : PackageJSON) (name : Str) : Option Str :=
  match p.dependencies.lookup name with
  | some v => some v
  | none => p.devDependencies.lookup name

/-- The mutation part of detectFromPackageJson: nuxt, vue, @nuxt/ui in
that order, each only when the field is still empty. -/
def applyPackageJson (p : PackageJSON) (s : DetectedStack) : DetectedStack :=
  stepNuxtUI (pkgGet p (str "@nuxt/ui"))
    (stepVue (pkgGet p (str "vue"))
      (stepNuxt (pkgGet p (str "nuxt")) s))

/-- The packages-map fallback of detectFromPackageLockJson. -/
def applyPackageLockPkgs (l : LockFile) (s : DetectedStack) : DetectedStack :=
  match l.packages.lookup (str "node_modules/@nuxt/ui") with
  | some pkg => if pkg.version = [] then s else { s with NuxtUI := pkg.version }
  | none => s

/-- The mutation part of detectFromPackageLockJson: only NuxtUI, only
when still empty; the dependencies map wins over the packages map, and
an entry with an empty version falls through to the packages map. -/
def applyPackageLock (l : LockFile) (s : DetectedStack) : DetectedStack :=
  if s.NuxtUI = [] then
    match l.dependencies.lookup (str "@nuxt/ui") with
    | some dep => if dep.version = [] then applyPackageLockPkgs l s else { s with NuxtUI := dep.version }
    | none => applyPackageLockPkgs l s
  else s

/-- Modelled from the spec: the mutation part of the missing
detectFromComposerLock, faithful to the spec sentence that a lock-file
reader supplements the manifest reader and must not override a value
already found for the same technology. -/
def applyComposerLock (c : ComposerLock) (s : DetectedStack) : DetectedStack :=
  stepLaravel c.laravelVersion (stepPHP c.phpVersion s)

/-- detectFromComposer on a directory: a missing file is no finding, a
directory of that name or an unreadable or unparseable file is an error
(the stack is untouched on every error path: the original mutates only
after a successful parse). -/
def detectFromComposer (es : List Entry) (s : DetectedStack) : Except Unit DetectedStack :=
  match findEntry es composerJsonName with
  | none => .ok s
  | some (.file _ (.composerData c)) => .ok (applyComposer c s)
  | some _ => .error ()

/-- detectFromPackageJson on a directory. -/
def detectFromPackageJson (es : List Entry) (s : DetectedStack) : Except Unit DetectedStack :=
  match findEntry es packageJsonName with
  | none => .ok s
  | some (.file _ (.packageData p)) => .ok (applyPackageJson p s)
  | some _ => .error ()

/-- detectFromPackageLockJson on a directory. -/
def detectFromPackageLockJson (es : List Entry) (s : DetectedStack) : Except Unit DetectedStack :=
  match findEntry es packageLockName with
  | none => .ok s
  | some (.file _ (.lockData l)) => .ok (applyPackageLock l s)
  | some _ => .error ()

/-- Modelled from the spec: detectFromComposerLock on a directory, with
the same error envelope as the other readers. -/
def detectFromComposerLock (es : List Entry) (s : DetectedStack) : Except Unit DetectedStack :=
  match findEntry es composerLockName with
  | none => .ok s
  | some (.file _ (.composerLockData c)) => .ok (applyComposerLock c s)
  | some _ => .error ()

/-- During the walk every reader error is discarded (the dispatch uses a
blank assignment), so an error leaves the stack as it was: the readers
mutate nothing before their error exits. -/
def exceptToStack (r : Except Unit DetectedStack) (s : DetectedStack) : DetectedStack :=
  match r with
  | .ok t => t
  | .error _ => s

/-- The fixed exclusion set of DetectStack. -/
def isIgnoredDir (n : Str) : Bool :=
  n == str "node_modules" || n == str "composer" || n == str "vendor"

/-- strings.HasPrefix(name, "."). -/
def startsWithDot (n : Str) : Bool :=
  match n with
  | c :: _ => c = '.'
  | [] => false

mutual
/-- One WalkDir callback visit below the root: dot-directories and the
exclusion set are skipped whole; an unreadable directory is skipped; a
marker file dispatches its reader on the containing directory with the
error discarded; other files are ignored. -/
def walkStep (ctx : List Entry) : Entry → DetectedStack → DetectedStack
  | .badDir _, s => s
  | .dir name sub, s =>
    if startsWithDot name then s
    else if isIgnoredDir name then s
    else walkList sub sub s
  | .file name _, s =>
    if name = composerJsonName then exceptToStack (detectFromComposer ctx s) s
    else if name = composerLockName then exceptToStack (detectFromComposerLock ctx s) s
    else if name = packageJsonName then exceptToStack (detectFromPackageJson ctx s) s
    else if name = packageLockName then exceptToStack (detectFromPackageLockJson ctx s) s
    else s

/-- Visit the remaining entries of a directory whose full entry list is
ctx, threading the stack. -/
def walkList (ctx : List Entry) : List Entry → DetectedStack → DetectedStack
  | [], s => s
  | e :: rest, s => walkList ctx rest (walkStep ctx e s)
end

/-- The recursive part of DetectStack below the root directory. -/
def walkDir (es : List Entry) (s : DetectedStack) : DetectedStack :=
  walkList es es s

/-- The state of the file system at the project root: the root path does
not exist, the root exists but file reads under it fail with a
permission-style (non not-found) error, or a readable directory tree. -/
inductive RootFS where
  | notFound
  | permDenied
  | tree (entries : List Entry)

/-- DetectStack (internal/detect/detect.go): run the three root readers
first so the root wins, then walk the tree. A nonexistent root makes
every root read a not-found (treated as no finding) and the walk error
is swallowed by the callback, so the scan ends normally and empty; a
permission-style failure surfaces from the first root reader. -/
def DetectStack : RootFS → Except Unit DetectedStack
  | .notFound => .ok emptyStack
  | .permDenied => .error ()
  | .tree entries =>
    match detectFromComposer entries emptyStack with
    | .error e => .error e
    | .ok s1 =>
      match detectFromPackageJson entries s1 with
      | .error e => .error e
      | .ok s2 =>
        match detectFromPackageLockJson entries s2 with
        | .error e => .error e
        | .ok s3 => .ok (walkDir entries s3)

/- ===== First-writer-wins machinery ===== -/

/-- Every field of s that is already non-empty keeps its value in t. -/
def StackPreserves (s t : DetectedStack) : Prop :=
  (s.PHP ≠ [] → t.PHP = s.PHP)
  ∧ (s.Laravel ≠ [] → t.Laravel = s.Laravel)
  ∧ (s.Nuxt ≠ [] → t.Nuxt = s.Nuxt)
  ∧ (s.Vue ≠ [] → t.Vue = s.Vue)
  ∧ (s.NuxtUI ≠ [] → t.NuxtUI = s.NuxtUI)

theorem stackPreserves_refl (s : DetectedStack) : StackPreserves s s :=
  ⟨fun _ => rfl, fun _ => rfl, fun _ => rfl, fun _ => rfl, fun _ => rfl⟩

theorem stackPreserves_trans {s t u : DetectedStack}
    (h1 : StackPreserves s t) (h2 : StackPreserves t u) : StackPreserves s u := by
  obtain ⟨a1, b1, c1, d1, e1⟩ := h1
  obtain ⟨a2, b2, c2, d2, e2⟩ := h2
  refine ⟨?_, ?_, ?_, ?_, ?_⟩ <;> intro h
  · rw [a2 (by rw [a1 h]; exact h), a1 h]
  · rw [b2 (by rw [b1 h]; exact h), b1 h]
  · rw [c2 (by rw [c1 h]; exact h), c1 h]
  · rw [d2 (by rw [d1 h]; exact h), d1 h]
  · rw [e2 (by rw [e1 h]; exact h), e1 h]

theorem stepPHP_preserves (o : Option Str) (s : DetectedStack) :
    StackPreserves s (stepPHP o s) := by
  unfold stepPHP
  by_cases h : s.PHP = []
  · simp only [h, if_true]
    cases o with
    | none => exact stackPreserves_refl s
    | some v => exact ⟨fun hc => absurd h hc, fun _ => rfl, fun _ => rfl, fun _ => rfl, fun _ => rfl⟩
  · simp only [h, if_false]
    exact stackPreserves_refl s

theorem stepLaravel_preserves (o : Option Str) (s : DetectedStack) :
    StackPreserves s (stepLaravel o s) := by
  unfold stepLaravel
  by_cases h : s.Laravel = []
  · simp only [h, if_true]
    cases o with
    | none => exact stackPreserves_refl s
    | some v => exact ⟨fun _ => rfl, fun hc => absurd h hc, fun _ => rfl, fun _ => rfl, fun _ => rfl⟩
  · simp only [h, if_false]
    exact stackPreserves_refl s

theorem stepNuxt_preserves (o : Option Str) (s : DetectedStack) :
    StackPreserves s (stepNuxt o s) := by
  unfold stepNuxt
  by_cases h : s.Nuxt = []
  · simp only [h, if_true]
    cases o with
    | none => exact stackPreserves_refl s
    | some v => exact ⟨fun _ => rfl, fun _ => rfl, fun hc => absurd h hc, fun _ => rfl, fun _ => rfl⟩
  · simp only [h, if_false]
    exact stackPreserves_refl s

theorem stepVue_preserves (o : Option Str) (s : DetectedStack) :
    StackPreserves s (stepVue o s) := by
  unfold stepVue
  by_cases h : s.Vue = []
  · simp only [h, if_true]
    cases o with
    | none => exact stackPreserves_refl s
    | some v => exact ⟨fun _ => rfl, fun _ => rfl, fun _ => rfl, fun hc => absurd h hc, fun _ => rfl⟩
  · simp only [h, if_false]
    exact stackPreserves_refl s

theorem stepNuxtUI_preserves (o : Option Str) (s : DetectedStack) :
    StackPreserves s (stepNuxtUI o s) := by
  unfold stepNuxtUI
  by_cases h : s.NuxtUI = []
  · simp only [h, if_true]
    cases o with
    | none => exact stackPreserves_refl s
    | some v => exact ⟨fun _ => rfl, fun _ => rfl, fun _ => rfl, fun _ => rfl, fun hc => absurd h hc⟩
  · simp only [h, if_false]
    exact stackPreserves_refl s

theorem applyComposer_preserves (c : ComposerJSON) (s : DetectedStack) :
    StackPreserves s (applyComposer c s) :=
  stackPreserves_trans
    (stackPreserves_trans (stepPHP_preserves _ s) (stepPHP_preserves _ _))
    (stepLaravel_preserves _ _)

theorem applyPackageJson_preserves (p : PackageJSON) (s : DetectedStack) :
    StackPreserves s (applyPackageJson p s) :=
  stackPreserves_trans
    (stackPreserves_trans (stepNuxt_preserves _ s) (stepVue_preserves _ _))
    (stepNuxtUI_preserves _ _)

theorem applyComposerLock_preserves (c : ComposerLock) (s : DetectedStack) :
    StackPreserves s (applyComposerLock c s) :=
  stackPreserves_trans (stepPHP_preserves _ s) (stepLaravel_preserves _ _)

/-- The frame of the lock-file reader mutation: only NuxtUI can change,
and only from the empty value. -/
theorem applyPackageLock_frame (l : LockFile) (s : DetectedStack) :
    (applyPackageLock l s).PHP = s.PHP
    ∧ (applyPackageLock l s).Laravel = s.Laravel
    ∧ (applyPackageLock l s).Nuxt = s.Nuxt
    ∧ (applyPackageLock l s).Vue = s.Vue
    ∧ (s.NuxtUI ≠ [] → (applyPackageLock l s).NuxtUI = s.NuxtUI) := by
  by_cases h : s.NuxtUI = []
  · unfold applyPackageLock applyPackageLockPkgs
    simp only [h, if_true]
    refine ⟨?_, ?_, ?_, ?_, fun hc => absurd rfl hc⟩ <;> (repeat' split) <;> rfl
  · simp [applyPackageLock, h]

theorem applyPackageLock_preserves (l : LockFile) (s : DetectedStack) :
    StackPreserves s (applyPackageLock l s) := by
  obtain ⟨h1, h2, h3, h4, h5⟩ := applyPackageLock_frame l s
  exact ⟨fun _ => h1, fun _ => h2, fun _ => h3, fun _ => h4, h5⟩

theorem detectFromComposer_preserves {es : List Entry} {s t : DetectedStack}
    (h : detectFromComposer es s = .ok t) : StackPreserves s t := by
  unfold detectFromComposer at h
  split at h
  · injection h with h; subst h; exact stackPreserves_refl s
  · injection h with h; subst h; exact applyComposer_preserves _ s
  · exact absurd h (by simp)

theorem detectFromPackageJson_preserves {es : List Entry} {s t : DetectedStack}
    (h : detectFromPackageJson es s = .ok t) : StackPreserves s t := by
  unfold detectFromPackageJson at h
  split at h
  · injection h with h; subst h; exact stackPreserves_refl s
  · injection h with h; subst h; exact applyPackageJson_preserves _ s
  · exact absurd h (by simp)

theorem detectFromPackageLockJson_preserves {es : List Entry} {s t : DetectedStack}
    (h : detectFromPackageLockJson es s = .ok t) : StackPreserves s t := by
  unfold detectFromPackageLockJson at h
  split at h
  · injection h with h; subst h; exact stackPreserves_refl s
  · injection h with h; subst h; exact applyPackageLock_preserves _ s
  · exact absurd h (by simp)

theorem detectFromComposerLock_preserves {es : List Entry} {s t : DetectedStack}
    (h : detectFromComposerLock es s = .ok t) : StackPreserves s t := by
  unfold detectFromComposerLock at h
  split at h
  · injection h with h; subst h; exact stackPreserves_refl s
  · injection h with h; subst h; exact applyComposerLock_preserves _ s
  · exact absurd h (by simp)

theorem exceptToStack_preserves {s : DetectedStack} (r : Except Unit DetectedStack)
    (h : ∀ t, r = .ok t → StackPreserves s t) :
    StackPreserves s (exceptToStack r s) := by
  cases r with
  | ok t => exact h t rfl
  | error e => exact stackPreserves_refl s

mutual
theorem walkStep_preserves (ctx : List Entry) (e : Entry) (s : DetectedStack) :
    StackPreserves s (walkStep ctx e s) :=
  match e with
  | .badDir _ => by rw [walkStep]; exact stackPreserves_refl s
  | .dir name sub => by
    rw [walkStep]
    by_cases h1 : startsWithDot name = true
    · simp only [h1, if_true]; exact stackPreserves_refl s
    · simp only [h1, if_false]
      by_cases h2 : isIgnoredDir name = true
      · simp only [h2, if_true]; exact stackPreserves_refl s
      · simp only [h2, if_false]
        exact walkList_preserves sub sub s
  | .file name _ => by
    rw [walkStep]
    by_cases h1 : name = composerJsonName
    · simp only [h1, if_true]
      exact exceptToStack_preserves _ (fun t ht => detectFromComposer_preserves ht)
    · simp only [h1, if_false]
      by_cases h2 : name = composerLockName
      · simp only [h2, if_true]
        exact exceptToStack_preserves _ (fun t ht => detectFromComposerLock_preserves ht)
      · simp only [h2, if_false]
        by_cases h3 : name = packageJsonName
        · simp only [h3, if_true]
          exact exceptToStack_preserves _ (fun t ht => detectFromPackageJson_preserves ht)
        · simp only [h3, if_false]
          by_cases h4 : name = packageLockName
          · simp only [h4, if_true]
            exact exceptToStack_preserves _ (fun t ht => detectFromPackageLockJson_preserves ht)
          · simp only [h4, if_false]
            exact stackPreserves_refl s

theorem walkList_preserves (ctx : List Entry) (es : List Entry) (s : DetectedStack) :
    StackPreserves s (walkList ctx es s) :=
  match es with
  | [] => by rw [walkList]; exact stackPreserves_refl s
  | e :: rest => by
    rw [walkList]
    exact stackPreserves_trans (walkStep_preserves ctx e s)
      (walkList_preserves ctx rest (walkStep ctx e s))
end

theorem walkDir_preserves (es : List Entry) (s : DetectedStack) :
    StackPreserves s (walkDir es s) :=
  walkList_preserves es es s

/- ===== Concrete trees for the detection claims ===== -/

deriving instance DecidableEq for Except

/-- The nested directory of the first-writer-wins scenario: a manifest
declaring php 8.3. -/
def fwwSub : List Entry :=
  [Entry.file composerJsonName
    (FileData.composerData ⟨[(str "php", str "8.3")], none⟩)]

/-- The first-writer-wins scenario: the root manifest declares php 8.2,
a nested manifest declares php 8.3. -/
def fwwTree : List Entry :=
  [Entry.file composerJsonName
    (FileData.composerData ⟨[(str "php", str "8.2")], none⟩),
   Entry.dir (str "api") fwwSub]

/-- A tree whose only manifests live inside excluded directories. -/
def exclTree : List Entry :=
  [Entry.dir (str "vendor")
    [Entry.file composerJsonName
      (FileData.composerData ⟨[(str "php", str "8.3")], none⟩)],
   Entry.dir (str ".git")
    [Entry.file packageJsonName
      (FileData.packageData ⟨[(str "nuxt", str "3.1")], []⟩)]]

/-- C1: first-writer-wins. Every walk visit and every reader success
preserves each non-empty field of the stack, so a field once set to a
non-empty version string is never overwritten later in the same scan;
on the concrete scenario where the root declares php 8.2 and a nested
manifest declares 8.3, the final record retains 8.2. -/
theorem detectStack_first_writer_wins :
    (∀ (ctx : List Entry) (e : Entry) (s : DetectedStack),
      StackPreserves s (walkStep ctx e s))
  ∧ (∀ (ctx es : List Entry) (s : DetectedStack),
      StackPreserves s (walkList ctx es s))
  ∧ (∀ (es : List Entry) (s t : DetectedStack),
      detectFromComposer es s = .ok t → StackPreserves s t)
  ∧ (∀ (es : List Entry) (s t : DetectedStack),
      detectFromComposerLock es s = .ok t → StackPreserves s t)
  ∧ (∀ (es : List Entry) (s t : DetectedStack),
      detectFromPackageJson es s = .ok t → StackPreserves s t)
  ∧ (∀ (es : List Entry) (s t : DetectedStack),
      detectFromPackageLockJson es s = .ok t → StackPreserves s t)
  ∧ DetectStack (RootFS.tree fwwTree) = .ok ⟨str "8.2", [], [], [], []⟩ := by
  refine ⟨walkStep_preserves, walkList_preserves,
    fun es s t h => detectFromComposer_preserves h,
    fun es s t h => detectFromComposerLock_preserves h,
    fun es s t h => detectFromPackageJson_preserves h,
    fun es s t h => detectFromPackageLockJson_preserves h, ?_⟩
  decide

/-- C1 witness: the composer-reader clause applied at the nested
directory declaring 8.3 over a stack that already holds 8.2. -/
theorem detectStack_first_writer_wins_witness :
    StackPreserves ⟨str "8.2", [], [], [], []⟩ ⟨str "8.2", [], [], [], []⟩ :=
  detectStack_first_writer_wins.2.2.1 fwwSub ⟨str "8.2", [], [], [], []⟩
    ⟨str "8.2", [], [], [], []⟩ (by decide)

/-- C7 counterexample: on a nonexistent root every root read fails with
a not-found error which every reader treats as no finding, and the
walk error is swallowed by the callback, so DetectStack ends without an
error, contradicting the claim that a missing root is fatal. -/
theorem detectStack_notfound_counterexample :
    DetectStack RootFS.notFound = .ok emptyStack
    ∧ DetectStack RootFS.notFound ≠ .error () := by
  exact ⟨rfl, by decide⟩

/-- C7 amended: a permission-style failure reading a root manifest is
fatal (shown both for an untraversable root and for a root manifest
whose read fails with a non not-found error), a nonexistent root yields
the empty stack without an error, and an unreadable subdirectory during
the walk is skipped while the scan continues. -/
theorem detectStack_root_error_policy :
    DetectStack RootFS.permDenied = .error ()
  ∧ DetectStack (RootFS.tree [Entry.file composerJsonName FileData.unreadableData])
      = .error ()
  ∧ DetectStack RootFS.notFound = .ok emptyStack
  ∧ (∀ (ctx : List Entry) (name : Str) (rest : List Entry) (s : DetectedStack),
      walkList ctx (Entry.badDir name :: rest) s = walkList ctx rest s) := by
  refine ⟨rfl, rfl, rfl, fun ctx name rest s => ?_⟩
  rfl

/-- C8: a directory whose name starts with a dot or belongs to the fixed
exclusion set is skipped whole without descending, so nothing under it
is consulted; on a concrete tree whose only manifests live under vendor
and .git, detection finds nothing. -/
theorem walk_skips_excluded_dirs :
    (∀ (ctx : List Entry) (name : Str) (sub : List Entry) (s : DetectedStack),
      startsWithDot name = true ∨ isIgnoredDir name = true →
      walkStep ctx (Entry.dir name sub) s = s)
  ∧ DetectStack (RootFS.tree exclTree) = .ok emptyStack := by
  constructor
  · intro ctx name sub s h
    show (if startsWithDot name = true then s
      else if isIgnoredDir name = true then s else walkList sub sub s) = s
    rcases h with h | h
    · simp [h]
    · simp [h]
  · decide

/-- C8 witness: the skip clause at the vendor directory. -/
theorem walk_skips_excluded_dirs_witness :
    walkStep [] (Entry.dir (str "vendor") []) emptyStack = emptyStack :=
  walk_skips_excluded_dirs.1 [] (str "vendor") [] emptyStack (Or.inr rfl)

/-- C10: the lock-file reader touches at most the NuxtUI field, only
when it was empty on entry; the four other fields are returned
unchanged on every successful path, and a non-empty NuxtUI is never
overwritten. -/
theorem detectFromPackageLockJson_frame (es : List Entry) (s t : DetectedStack)
    (h : detectFromPackageLockJson es s = .ok t) :
    t.PHP = s.PHP ∧ t.Laravel = s.Laravel ∧ t.Nuxt = s.Nuxt ∧ t.Vue = s.Vue
    ∧ (s.NuxtUI ≠ [] → t.NuxtUI = s.NuxtUI) := by
  unfold detectFromPackageLockJson at h
  split at h
  · injection h with h; subst h; exact ⟨rfl, rfl, rfl, rfl, fun _ => rfl⟩
  · injection h with h; subst h; exact applyPackageLock_frame _ s
  · exact absurd h (by simp)

/-- C10 witness: the frame property applied at a concrete directory. -/
theorem detectFromPackageLockJson_frame_witness :
    emptyStack.PHP = emptyStack.PHP ∧ emptyStack.Laravel = emptyStack.Laravel
    ∧ emptyStack.Nuxt = emptyStack.Nuxt ∧ emptyStack.Vue = emptyStack.Vue
    ∧ (emptyStack.NuxtUI ≠ [] → emptyStack.NuxtUI = emptyStack.NuxtUI) :=
  detectFromPackageLockJson_frame [] emptyStack emptyStack rfl

/- ===== Rule store and resolution (embedded-rules generator,
   package cmd with the rules store) ===== -/

/-- The embedded rule store: identifiers (relative path without the .md
extension) mapped to markdown content; rules.Get is a lookup. -/
abbrev Rules := List (Str × Str)

/-- rules.Get: content for an identifier, or a not-found indication. -/
def rulesGet (rs : Rules) (id : Str) : Option Str := rs.lookup id

/-- ruleExists: rules.Get succeeds. -/
def ruleExists (rs : Rules) (id : Str) : Bool := (rulesGet rs id).isSome

/-- addIfExists: append the identifier only when its content exists. -/
def addIfExists (rs : Rules) (ids : List Str) (id : Str) : List Str :=
  if ruleExists rs id then ids ++ [id] else ids

/-- The base general identifier of a technology: name/general. -/
def generalIdBase (name : Str) : Str := name ++ str "/general"

/-- The major.minor general identifier: name/major.minor/general. -/
def generalIdMM (name version : Str) : Str :=
  name ++ str "/" ++ versionMajor (normalizeVersion version)
    ++ str "." ++ versionMinor (normalizeVersion version) ++ str "/general"

/-- The major general identifier: name/major/general. -/
def generalIdMajor (name version : Str) : Str :=
  name ++ str "/" ++ versionMajor (normalizeVersion version) ++ str "/general"

/-- addRulesFor: for a technology with a non-empty version, try the base
general rule, then the major.minor general rule, then the major general
rule, appending each identifier whose content exists. -/
def addRulesFor (rs : Rules) (ids : List Str) (name version : Str) : List Str :=
  if version = [] then ids
  else
    let ids1 := addIfExists rs ids (generalIdBase name)
    if normalizeVersion version = [] then ids1
    else
      let ids2 :=
        if versionMajor (normalizeVersion version) ≠ []
            ∧ versionMinor (normalizeVersion version) ≠ [] then
          addIfExists rs ids1 (generalIdMM name version)
        else ids1
      if versionMajor (normalizeVersion version) ≠ [] then
        addIfExists rs ids2 (generalIdMajor name version)
      else ids2

/-- buildGeneralRulesFromDetection: php, laravel, nuxt, vue, nuxt_ui in
that order, threading the accumulated identifier list. -/
def buildGeneralRulesFromDetection (rs : Rules) (stack : DetectedStack) : List Str :=
  addRulesFor rs
    (addRulesFor rs
      (addRulesFor rs
        (addRulesFor rs
          (addRulesFor rs [] (str "php") stack.PHP)
          (str "laravel") stack.Laravel)
        (str "nuxt") stack.Nuxt)
      (str "vue") stack.Vue)
    (str "nuxt_ui") stack.NuxtUI

/-- agentFile: a label for the heading and a rule identifier. -/
structure AgentFile where
  label : Str
  id : Str
deriving DecidableEq

/-- The major.minor agent identifier: name/major.minor/agent. -/
def agentIdMM (name version : Str) : Str :=
  name ++ str "/" ++ versionMajor (normalizeVersion version)
    ++ str "." ++ versionMinor (normalizeVersion version) ++ str "/agent"

/-- The major agent identifier: name/major/agent. -/
def agentIdMajor (name version : Str) : Str :=
  name ++ str "/" ++ versionMajor (normalizeVersion version) ++ str "/agent"

/-- The base agent identifier: name/agent. -/
def agentIdBase (name : Str) : Str := name ++ str "/agent"

/-- addAgentFor: with a non-empty version, try the major.minor agent
rule, else the major agent rule, else the base agent rule, appending
only the first whose content exists, or nothing. -/
def addAgentFor (rs : Rules) (files : List AgentFile) (label name version : Str) :
    List AgentFile :=
  if version = [] then files
  else if versionMajor (normalizeVersion version) ≠ []
      ∧ versionMinor (normalizeVersion version) ≠ []
      ∧ ruleExists rs (agentIdMM name version) = true then
    files ++ [⟨label, agentIdMM name version⟩]
  else if versionMajor (normalizeVersion version) ≠ []
      ∧ ruleExists rs (agentIdMajor name version) = true then
    files ++ [⟨label, agentIdMajor name version⟩]
  else if ruleExists rs (agentIdBase name) = true then
    files ++ [⟨label, agentIdBase name⟩]
  else files

/-- The major.minor agent path of the file-based generator:
filepath.Join("rules", name, major.minor, "agent.md"); Join on these
already-clean components is plain slash-concatenation. -/
def agentPathMM (name version : Str) : Str :=
  str "rules/" ++ name ++ str "/" ++ versionMajor (normalizeVersion version)
    ++ str "." ++ versionMinor (normalizeVersion version) ++ str "/agent.md"

/-- The major agent path of the file-based generator. -/
def agentPathMajor (name version : Str) : Str :=
  str "rules/" ++ name ++ str "/" ++ versionMajor (normalizeVersion version)
    ++ str "/agent.md"

/-- The base agent path of the file-based generator. -/
def agentPathBase (name : Str) : Str := str "rules/" ++ name ++ str "/agent.md"

/-- addAgentFor of the file-based generator (cmd/generate.go): the
selection consults no content store; for every non-empty version it
appends exactly one path, chosen by version shape alone (major.minor
when both parts are non-empty, else major, else base); whether content
exists at the path is only discovered at merge time. -/
def addAgentForFiles (files : List AgentFile) (label name version : Str) :
    List AgentFile :=
  if version = [] then files
  else if versionMajor (normalizeVersion version) ≠ []
      ∧ versionMinor (normalizeVersion version) ≠ [] then
    files ++ [⟨label, agentPathMM name version⟩]
  else if versionMajor (normalizeVersion version) ≠ [] then
    files ++ [⟨label, agentPathMajor name version⟩]
  else files ++ [⟨label, agentPathBase name⟩]

/-- buildAgentRulesFromDetection: PHP, Laravel, Nuxt, Vue, Nuxt UI in
that order. -/
def buildAgentRulesFromDetection (rs : Rules) (stack : DetectedStack) : List AgentFile :=
  addAgentFor rs
    (addAgentFor rs
      (addAgentFor rs
        (addAgentFor rs
          (addAgentFor rs [] (str "PHP") (str "php") stack.PHP)
          (str "Laravel") (str "laravel") stack.Laravel)
        (str "Nuxt") (str "nuxt") stack.Nuxt)
      (str "Vue") (str "vue") stack.Vue)
    (str "Nuxt UI") (str "nuxt_ui") stack.NuxtUI

/- ===== C2: general-document cumulative inclusion ===== -/

/-- A store holding content at the base, 5.3 and 5 granularities of the
php general rules. -/
def c2Rules : Rules :=
  [(str "php/general", str "base rules"),
   (str "php/5.3/general", str "minor rules"),
   (str "php/5/general", str "major rules")]

/-- C2 counterexample: with content at all three granularities and
version 5.3, the resolved list is base, then major.minor, then major;
it is not the claimed base, major, major.minor order. -/
theorem addRulesFor_order_counterexample :
    addRulesFor c2Rules [] (str "php") (str "5.3")
      = [str "php/general", str "php/5.3/general", str "php/5/general"]
    ∧ addRulesFor c2Rules [] (str "php") (str "5.3")
      ≠ [str "php/general", str "php/5/general", str "php/5.3/general"] := by
  decide

/-- C2 amended: for a technology whose version normalizes to major 5 and
minor 3, with rule content existing at the base, 5.3 and 5
granularities, the resolved general list gains exactly those three
pairwise-distinct identifiers, in the order base, then major.minor
(5.3), then major (5). -/
theorem addRulesFor_cumulative_order (rs : Rules) (ids : List Str) (name version : Str)
    (hM : versionMajor (normalizeVersion version) = str "5")
    (hm : versionMinor (normalizeVersion version) = str "3")
    (hb : ruleExists rs (generalIdBase name) = true)
    (hmm : ruleExists rs (generalIdMM name version) = true)
    (hmj : ruleExists rs (generalIdMajor name version) = true) :
    addRulesFor rs ids name version
      = ids ++ [generalIdBase name, generalIdMM name version, generalIdMajor name version]
    ∧ generalIdMM name version = name ++ str "/5.3/general"
    ∧ generalIdMajor name version = name ++ str "/5/general"
    ∧ generalIdBase name ≠ generalIdMM name version
    ∧ generalIdBase name ≠ generalIdMajor name version
    ∧ generalIdMM name version ≠ generalIdMajor name version := by
  have hv : ¬ version = [] := by
    intro h; rw [h] at hM; exact absurd hM (by decide)
  have hn : ¬ normalizeVersion version = [] := by
    intro h; rw [h] at hM; exact absurd hM (by decide)
  have hMM : generalIdMM name version = name ++ str "/5.3/general" := by
    unfold generalIdMM
    rw [hM, hm]
    simp only [List.append_assoc]
    exact congrArg (fun t => name ++ t) rfl
  have hMJ : generalIdMajor name version = name ++ str "/5/general" := by
    unfold generalIdMajor
    rw [hM]
    simp only [List.append_assoc]
    exact congrArg (fun t => name ++ t) rfl
  have hne : ∀ (a b : Str), a.length ≠ b.length → name ++ a ≠ name ++ b := by
    intro a b hab h
    refine hab ?_
    have hl := congrArg List.length h
    simp only [List.length_append] at hl
    omega
  have main : addRulesFor rs ids name version
      = ids ++ [generalIdBase name, generalIdMM name version, generalIdMajor name version] := by
    unfold addRulesFor
    rw [if_neg hv, if_neg hn,
      if_pos (⟨by rw [hM]; decide, by rw [hm]; decide⟩ :
        versionMajor (normalizeVersion version) ≠ []
        ∧ versionMinor (normalizeVersion version) ≠ []),
      if_pos (by rw [hM]; decide : versionMajor (normalizeVersion version) ≠ [])]
    unfold addIfExists
    rw [if_pos hb, if_pos hmm, if_pos hmj]
    simp [List.append_assoc]
  refine ⟨main, hMM, hMJ, ?_, ?_, ?_⟩
  · show name ++ str "/general" ≠ generalIdMM name version
    rw [hMM]; exact hne _ _ (by decide)
  · show name ++ str "/general" ≠ generalIdMajor name version
    rw [hMJ]; exact hne _ _ (by decide)
  · rw [hMM, hMJ]; exact hne _ _ (by decide)

/-- C2 witness: the amended order at a concrete store and version. -/
theorem addRulesFor_cumulative_order_witness :
    addRulesFor c2Rules [] (str "php") (str "5.3")
      = [] ++ [generalIdBase (str "php"), generalIdMM (str "php") (str "5.3"),
          generalIdMajor (str "php") (str "5.3")]
    ∧ generalIdMM (str "php") (str "5.3") = str "php" ++ str "/5.3/general"
    ∧ generalIdMajor (str "php") (str "5.3") = str "php" ++ str "/5/general"
    ∧ generalIdBase (str "php") ≠ generalIdMM (str "php") (str "5.3")
    ∧ generalIdBase (str "php") ≠ generalIdMajor (str "php") (str "5.3")
    ∧ generalIdMM (str "php") (str "5.3") ≠ generalIdMajor (str "php") (str "5.3") :=
  addRulesFor_cumulative_order c2Rules [] (str "php") (str "5.3")
    (by decide) (by decide) (by decide) (by decide) (by decide)

/- ===== C3: agent-document exclusive resolution ===== -/

/-- A store holding agent content at all three granularities for php. -/
def c3Rules : Rules :=
  [(str "php/5.3/agent", str "mm agent"),
   (str "php/5/agent", str "major agent"),
   (str "php/agent", str "base agent")]

/-- C3 counterexample: the file-based generator addAgentFor, also cited
by the claim, consults no content store at selection time; with version
5.3 it selects the major.minor agent path unconditionally, so its
selection is not the first granularity whose content exists, and it is
never zero for a non-empty version. -/
theorem addAgentForFiles_counterexample :
    addAgentForFiles [] (str "PHP") (str "php") (str "5.3")
      = [⟨str "PHP", str "rules/php/5.3/agent.md"⟩]
    ∧ addAgentForFiles [] (str "PHP") (str "php") (str "5.3") ≠ [] := by
  decide

/-- C3 amended: in the embedded-rules generator, agent resolution
appends at most one identifier per technology (zero or one in every
case) and, under a version with non-empty major and minor, picks the
first existing among major.minor, major, base, and nothing when none of
the three exists; in the file-based generator, selection is by version
shape alone with no existence check: exactly one path is appended for
every non-empty version, the major.minor path when both parts are
non-empty. -/
theorem addAgentFor_exclusive (rs : Rules) (files : List AgentFile) (label name version : Str)
    (hM : versionMajor (normalizeVersion version) ≠ [])
    (hm : versionMinor (normalizeVersion version) ≠ []) :
    (∀ (rs2 : Rules) (files2 : List AgentFile) (label2 name2 version2 : Str),
      addAgentFor rs2 files2 label2 name2 version2 = files2
      ∨ ∃ id, addAgentFor rs2 files2 label2 name2 version2 = files2 ++ [⟨label2, id⟩])
  ∧ (ruleExists rs (agentIdMM name version) = true →
      addAgentFor rs files label name version = files ++ [⟨label, agentIdMM name version⟩])
  ∧ (ruleExists rs (agentIdMM name version) = false →
      ruleExists rs (agentIdMajor name version) = true →
      addAgentFor rs files label name version = files ++ [⟨label, agentIdMajor name version⟩])
  ∧ (ruleExists rs (agentIdMM name version) = false →
      ruleExists rs (agentIdMajor name version) = false →
      ruleExists rs (agentIdBase name) = true →
      addAgentFor rs files label name version = files ++ [⟨label, agentIdBase name⟩])
  ∧ (ruleExists rs (agentIdMM name version) = false →
      ruleExists rs (agentIdMajor name version) = false →
      ruleExists rs (agentIdBase name) = false →
      addAgentFor rs files label name version = files)
  ∧ (∀ (files2 : List AgentFile) (label2 name2 version2 : Str), version2 ≠ [] →
      ∃ id, addAgentForFiles files2 label2 name2 version2 = files2 ++ [⟨label2, id⟩])
  ∧ addAgentForFiles files label name version
      = files ++ [⟨label, agentPathMM name version⟩] := by
  have hv : ¬ version = [] := by
    intro h
    rw [h] at hM
    exact hM (by decide)
  refine ⟨?_, ?_, ?_, ?_, ?_, ?_, ?_⟩
  · intro rs2 files2 label2 name2 version2
    unfold addAgentFor
    split
    · exact Or.inl rfl
    · split
      · exact Or.inr ⟨_, rfl⟩
      · split
        · exact Or.inr ⟨_, rfl⟩
        · split
          · exact Or.inr ⟨_, rfl⟩
          · exact Or.inl rfl
  · intro hb1
    unfold addAgentFor
    rw [if_neg hv, if_pos ⟨hM, hm, hb1⟩]
  · intro hb1 hb2
    unfold addAgentFor
    rw [if_neg hv, if_neg (by simp [hb1]), if_pos ⟨hM, hb2⟩]
  · intro hb1 hb2 hb3
    unfold addAgentFor
    rw [if_neg hv, if_neg (by simp [hb1]), if_neg (by simp [hb2]), if_pos hb3]
  · intro hb1 hb2 hb3
    unfold addAgentFor
    rw [if_neg hv, if_neg (by simp [hb1]), if_neg (by simp [hb2]), if_neg (by simp [hb3])]
  · intro files2 label2 name2 version2 hv2
    unfold addAgentForFiles
    rw [if_neg hv2]
    split
    · exact ⟨_, rfl⟩
    · split
      · exact ⟨_, rfl⟩
      · exact ⟨_, rfl⟩
  · unfold addAgentForFiles
    rw [if_neg hv, if_pos ⟨hM, hm⟩]

/-- C3 witness: with content at all three granularities and version 5.3,
only the major.minor agent identifier is selected. -/
theorem addAgentFor_exclusive_witness :
    addAgentFor c3Rules [] (str "PHP") (str "php") (str "5.3")
      = [] ++ [⟨str "PHP", agentIdMM (str "php") (str "5.3")⟩] :=
  (addAgentFor_exclusive c3Rules [] (str "PHP") (str "php") (str "5.3")
    (by decide) (by decide)).2.1 (by decide)

/- ===== Content merge (embedded-rules generator) ===== -/

/-- The horizontal-rule separator written between merged chunks. -/
def hrSep : Str := str "\n\n---\n\n"

/-- deriveRuleLabel: strip a /general or /agent suffix and join the path
segments with spaces. -/
def deriveRuleLabel (id : Str) : Str :=
  joinWith (str " ")
    (splitOnChar '/' (trimSuffixStr (trimSuffixStr id (str "/general")) (str "/agent")))

/-- The placeholder comment loadAndMergeRules writes for an identifier
whose content cannot be loaded: it names the rule and the expected
storage key rules/<id>.md. -/
def missingComment (id : Str) : Str :=
  str "<!-- Missing instructions for " ++ deriveRuleLabel id
    ++ str " (expected file: rules/" ++ id ++ str ".md) -->"

/-- The chunk merged for one identifier: its content, or the placeholder
when the store has none. -/
def rulePiece (rs : Rules) (id : Str) : Str :=
  match rulesGet rs id with
  | some d => d
  | none => missingComment id

/-- The builder loop shared by the merge functions: write a separator
before every chunk except when the builder is still empty. -/
def mergeChunks (piece : Str → Str) : Str → List Str → Str
  | acc, [] => acc
  | acc, x :: rest =>
    mergeChunks piece (if acc = [] then piece x else acc ++ hrSep ++ piece x) rest

/-- The text loadAndMergeRules produces. -/
def mergeRulesText (rs : Rules) (ids : List Str) : Str :=
  mergeChunks (rulePiece rs) [] ids

/-- loadAndMergeRules: every path writes either content or a
placeholder; the error result is nil on every path. -/
def loadAndMergeRules (rs : Rules) (ids : List Str) : Except Unit Str :=
  .ok (mergeRulesText rs ids)

/- ===== Content merge (file-based generator, cmd/generate.go) ===== -/

/-- The file system seen by loadAndMergeFiles: path to content. -/
abbrev Files := List (Str × Str)

/-- os.ReadFile for the merge: content of a path, or a read failure. -/
def fileRead (fs : Files) (f : Str) : Option Str := fs.lookup f

/-- deriveRuleNameFromPath: the paths handed to it are produced by
filepath.Join and are already clean, so filepath.Clean is the identity
on them; strip the rules/ prefix and the .md suffix and join the
remaining segments with spaces (a single segment joins to itself). -/
def deriveRuleNameFromPath (p : Str) : Str :=
  joinWith (str " ")
    (splitOnChar '/' (trimSuffixStr (trimPrefixStr p (str "rules/")) (str ".md")))

/-- The placeholder loadAndMergeFiles writes for an unreadable file: it
names the rule and the expected file path. -/
def fileMissingComment (f : Str) : Str :=
  str "<!-- Missing instructions for " ++ deriveRuleNameFromPath f
    ++ str " (expected file: " ++ f ++ str ") -->"

/-- The chunk merged for one file path. -/
def filePiece (fs : Files) (f : Str) : Str :=
  match fileRead fs f with
  | some d => d
  | none => fileMissingComment f

/-- The text loadAndMergeFiles produces. -/
def mergeFilesText (fs : Files) (files : List Str) : Str :=
  mergeChunks (filePiece fs) [] files

/-- loadAndMergeFiles: the error result is nil on every path. -/
def loadAndMergeFiles (fs : Files) (files : List Str) : Except Unit Str :=
  .ok (mergeFilesText fs files)

/- ===== Agent content (embedded-rules generator) ===== -/

/-- The fixed heading of the agents document. -/
def agentHeader : Str :=
  str "# Agents\n\n<!-- Generated by ai-instructions. Do not edit manually. -->\n\n---\n\n"

/-- The placeholder buildAgentContent writes under a heading whose
content cannot be loaded. -/
def missingAgentComment (label id : Str) : Str :=
  str "<!-- Missing agent instructions for " ++ label
    ++ str " (expected file: rules/" ++ id ++ str ".md) -->"

/-- The chunk emitted for one agent file: its level-two heading followed
by content or the placeholder. -/
def agentPiece (rs : Rules) (af : AgentFile) : Str :=
  str "## " ++ af.label ++ str "\n\n" ++
    (match rulesGet rs af.id with
     | some d => d
     | none => missingAgentComment af.label af.id)

/-- buildAgentContent: the fixed header, then the chunks separated by
the horizontal rule. -/
def buildAgentContent (rs : Rules) (files : List AgentFile) : Str :=
  agentHeader ++ joinWith hrSep (files.map (agentPiece rs))

/- ===== Infix helpers for the placeholder claims ===== -/

theorem strContains_refl (s : Str) : strContains s s := ⟨[], [], by simp⟩

theorem strContains_append_right {a : Str} {s : Str} (t : Str)
    (h : strContains a s) : strContains (a ++ t) s := by
  obtain ⟨p, q, hp⟩ := h
  exact ⟨p, q ++ t, by rw [hp]; simp⟩

theorem strContains_append_left {b : Str} {s : Str} (t : Str)
    (h : strContains b s) : strContains (t ++ b) s := by
  obtain ⟨p, q, hp⟩ := h
  exact ⟨t ++ p, q, by rw [hp]; simp⟩

/-- mergeChunks only ever appends to the builder. -/
theorem mergeChunks_extends (piece : Str → Str) :
    ∀ (xs : List Str) (acc : Str), ∃ t, mergeChunks piece acc xs = acc ++ t := by
  intro xs
  induction xs with
  | nil => intro acc; exact ⟨[], by simp [mergeChunks]⟩
  | cons x rest ih =>
    intro acc
    rw [mergeChunks]
    by_cases h : acc = []
    · obtain ⟨t, ht⟩ := ih (piece x)
      rw [if_pos h, ht, h]
      exact ⟨piece x ++ t, by simp⟩
    · obtain ⟨t, ht⟩ := ih (acc ++ hrSep ++ piece x)
      rw [if_neg h, ht]
      exact ⟨hrSep ++ piece x ++ t, by simp⟩

/-- The chunk of every listed identifier appears in the merged text. -/
theorem mergeChunks_contains (piece : Str → Str) :
    ∀ (xs : List Str) (acc : Str) (x : Str), x ∈ xs →
      strContains (mergeChunks piece acc xs) (piece x) := by
  intro xs
  induction xs with
  | nil => intro acc x h; exact absurd h (by simp)
  | cons y rest ih =>
    intro acc x h
    rw [mergeChunks]
    rcases List.mem_cons.mp h with h1 | h2
    · subst h1
      obtain ⟨t, ht⟩ := mergeChunks_extends piece rest
        (if acc = [] then piece x else acc ++ hrSep ++ piece x)
      rw [ht]
      refine strContains_append_right t ?_
      by_cases hacc : acc = []
      · rw [if_pos hacc]; exact strContains_refl _
      · rw [if_neg hacc]
        exact strContains_append_left _ (strContains_refl _)
    · exact ih _ x h2

/-- Every listed part appears in a join. -/
theorem joinWith_contains (sep : Str) :
    ∀ (parts : List Str) (x : Str), x ∈ parts →
      strContains (joinWith sep parts) x := by
  intro parts
  induction parts with
  | nil => intro x h; exact absurd h (by simp)
  | cons y rest ih =>
    intro x h
    cases rest with
    | nil =>
      have h1 : x = y := by simpa using h
      subst h1
      exact strContains_refl x
    | cons z zs =>
      have hj : joinWith sep (y :: z :: zs) = y ++ sep ++ joinWith sep (z :: zs) := rfl
      rw [hj]
      rcases List.mem_cons.mp h with h1 | h2
      · subst h1
        exact strContains_append_right _ (strContains_append_right _ (strContains_refl x))
      · rw [List.append_assoc]
        exact strContains_append_left _ (strContains_append_left _ (ih x h2))

theorem strContains_trans {a b c : Str} (h1 : strContains a b) (h2 : strContains b c) :
    strContains a c := by
  obtain ⟨p, q, hp⟩ := h1
  obtain ⟨p2, q2, hp2⟩ := h2
  exact ⟨p ++ p2, q2 ++ q, by rw [hp, hp2]; simp⟩

/-- C5: missing rule content is never fatal. Both merge functions return
success unconditionally, and whenever a listed identifier has no backing
content, the output contains the placeholder comment naming the rule and
the expected storage key; buildAgentContent likewise substitutes its
placeholder under the technology heading. -/
theorem missing_rule_content_never_fatal :
    (∀ (rs : Rules) (ids : List Str),
      loadAndMergeRules rs ids = Except.ok (mergeRulesText rs ids))
  ∧ (∀ (fs : Files) (files : List Str),
      loadAndMergeFiles fs files = Except.ok (mergeFilesText fs files))
  ∧ (∀ (rs : Rules) (ids : List Str) (id : Str), id ∈ ids → rulesGet rs id = none →
      strContains (mergeRulesText rs ids) (missingComment id))
  ∧ (∀ (fs : Files) (files : List Str) (f : Str), f ∈ files → fileRead fs f = none →
      strContains (mergeFilesText fs files) (fileMissingComment f))
  ∧ (∀ (rs : Rules) (files : List AgentFile) (af : AgentFile), af ∈ files →
      rulesGet rs af.id = none →
      strContains (buildAgentContent rs files) (missingAgentComment af.label af.id)) := by
  refine ⟨fun _ _ => rfl, fun _ _ => rfl, ?_, ?_, ?_⟩
  · intro rs ids id hmem hnone
    have hpiece : rulePiece rs id = missingComment id := by
      simp only [rulePiece, hnone]
    have h := mergeChunks_contains (rulePiece rs) ids [] id hmem
    rwa [hpiece] at h
  · intro fs files f hmem hnone
    have hpiece : filePiece fs f = fileMissingComment f := by
      simp only [filePiece, hnone]
    have h := mergeChunks_contains (filePiece fs) files [] f hmem
    rwa [hpiece] at h
  · intro rs files af hmem hnone
    have hp : strContains (agentPiece rs af) (missingAgentComment af.label af.id) := by
      refine ⟨str "## " ++ af.label ++ str "\n\n", [], ?_⟩
      simp [agentPiece, hnone]
    have hj : strContains (joinWith hrSep (files.map (agentPiece rs))) (agentPiece rs af) :=
      joinWith_contains hrSep _ _ (List.mem_map_of_mem _ hmem)
    unfold buildAgentContent
    exact strContains_append_left _ (strContains_trans hj hp)

/-- C5 witness: an empty store and one requested identifier still merge
successfully and the output carries the placeholder for it. -/
theorem missing_rule_content_never_fatal_witness :
    strContains (mergeRulesText [] [str "php/general"])
      (missingComment (str "php/general")) :=
  missing_rule_content_never_fatal.2.2.1 [] [str "php/general"] (str "php/general")
    (by decide) rfl

/- ===== Stack section and the general render pipeline ===== -/

/-- buildStackSection line list: one bullet per non-empty technology, in
the fixed order. -/
def stackLines (stack : DetectedStack) : List Str :=
  (if stack.PHP = [] then [] else [str "- PHP: " ++ stack.PHP])
  ++ (if stack.Laravel = [] then [] else [str "- Laravel: " ++ stack.Laravel])
  ++ (if stack.Nuxt = [] then [] else [str "- Nuxt: " ++ stack.Nuxt])
  ++ (if stack.Vue = [] then [] else [str "- Vue: " ++ stack.Vue])
  ++ (if stack.NuxtUI = [] then [] else [str "- Nuxt UI: " ++ stack.NuxtUI])

/-- buildStackSection: empty when nothing was detected, otherwise the
Stack heading over the newline-joined bullet lines. -/
def buildStackSection (stack : DetectedStack) : Str :=
  if stackLines stack = [] then []
  else str "## Stack\n\n" ++ joinWith (str "\n") (stackLines stack)

/-- The auto-mode copilot-instructions document: merged general rules,
with the stack section and a separator prepended when the section is
non-empty. -/
def renderGeneral (rs : Rules) (stack : DetectedStack) : Str :=
  if buildStackSection stack = []
  then mergeRulesText rs (buildGeneralRulesFromDetection rs stack)
  else buildStackSection stack ++ hrSep
    ++ mergeRulesText rs (buildGeneralRulesFromDetection rs stack)

/-- C6: the render is a pure function of the stack record and of the
observable content of the rule store: two runs over stores answering
every lookup identically, on the same record, produce byte-identical
output. -/
theorem renderGeneral_deterministic (rs1 rs2 : Rules) (st1 st2 : DetectedStack)
    (hrs : ∀ id, rulesGet rs1 id = rulesGet rs2 id) (hst : st1 = st2) :
    renderGeneral rs1 st1 = renderGeneral rs2 st2 := by
  subst hst
  have hex : ruleExists rs1 = ruleExists rs2 := by
    funext id; unfold ruleExists; rw [hrs id]
  have hai : addIfExists rs1 = addIfExists rs2 := by
    funext ids id; unfold addIfExists; rw [hex]
  have har : addRulesFor rs1 = addRulesFor rs2 := by
    funext ids name version
    simp only [addRulesFor]
    rw [hai]
  have hp : rulePiece rs1 = rulePiece rs2 := by
    funext id; unfold rulePiece; rw [hrs id]
  have hb : buildGeneralRulesFromDetection rs1 st1 = buildGeneralRulesFromDetection rs2 st1 := by
    unfold buildGeneralRulesFromDetection
    rw [har]
  unfold renderGeneral mergeRulesText
  rw [hp, hb]

/-- C6 witness: the determinism theorem at a concrete store and record. -/
theorem renderGeneral_deterministic_witness :
    renderGeneral c2Rules emptyStack = renderGeneral c2Rules emptyStack :=
  renderGeneral_deterministic c2Rules c2Rules emptyStack emptyStack
    (fun _ => rfl) rfl

/- ===== Structured-section merge (the standalone generator, main.go) ===== -/

/-- Section (main.go): a heading, free text and a bullet list. -/
structure MdSection where
  heading : Str
  text : Str
  bullets : List Str
deriving DecidableEq

/-- Template (main.go): an optional title and the section list. -/
structure Template where
  title : Str
  sections : List MdSection
deriving DecidableEq

/-- trimAll (main.go): trim every bullet, dropping the empty ones. -/
def trimAll : List Str → List Str
  | [] => []
  | v :: rest =>
    if trimSpace v = [] then trimAll rest
    else trimSpace v :: trimAll rest

/-- The loop of mergeBullets: trim each bullet, skip empties and
bullets already seen, keep first occurrences in order. -/
def dedupeTrim : List Str → List Str → List Str
  | [], _ => []
  | v :: rest, seen =>
    if trimSpace v = [] ∨ trimSpace v ∈ seen then dedupeTrim rest seen
    else trimSpace v :: dedupeTrim rest (trimSpace v :: seen)

/-- mergeBullets (main.go): stable de-dupe while appending b to a. -/
def mergeBullets (a b : List Str) : List Str := dedupeTrim (a ++ b) []

/-- The per-heading merge of mergeTemplates: prefer the first non-empty
text, append a later different text after a blank line, and merge the
bullets with de-duplication; the heading of the first occurrence is
kept. -/
def mergeSectionInto (m s : MdSection) : MdSection :=
  { m with
    text :=
      if trimSpace s.text = [] then m.text
      else if trimSpace m.text = [] then s.text
      else if trimSpace m.text = trimSpace s.text then m.text
      else trimSpace m.text ++ str "\n\n" ++ trimSpace s.text,
    bullets := mergeBullets m.bullets s.bullets }

/-- Merge a section into the first accumulated section sharing its
trimmed heading, or append it (bullets normalized) at the end; this
realizes the heading-to-index map of mergeTemplates as a first-match
search. -/
def insertSection (s : MdSection) : List MdSection → List MdSection
  | [] => [{ s with bullets := trimAll s.bullets }]
  | m :: rest =>
    if trimSpace m.heading = trimSpace s.heading then mergeSectionInto m s :: rest
    else m :: insertSection s rest

/-- One step of the mergeTemplates loop: sections with an empty trimmed
heading are skipped. -/
def mergeOne (merged : List MdSection) (s : MdSection) : List MdSection :=
  if trimSpace s.heading = [] then merged else insertSection s merged

/-- The section part of mergeTemplates: every section of every template
in order, merged by heading. -/
def mergeSections (ts : List Template) : List MdSection :=
  ((ts.map Template.sections).flatten).foldl mergeOne []

/-- The title part of mergeTemplates: the first non-blank title, else a
composed one. -/
def mergeTitle : List Template → List Str → Str
  | [], sets => str "Copilot instructions (" ++ joinWith (str " + ") sets ++ str ")"
  | t :: rest, sets =>
    if trimSpace t.title = [] then mergeTitle rest sets else t.title

/-- mergeTemplates (main.go): the merged title and sections. -/
def mergeTemplates (ts : List Template) (sets : List Str) : Str × List MdSection :=
  (mergeTitle ts sets, mergeSections ts)

/- ===== Spec-side descriptions for the C9 statement ===== -/

/-- Defined from the spec words: keep a value only on first sight,
appending at the end. -/
def keepFirst (acc : List Str) (v : Str) : List Str :=
  if v ∈ acc then acc else acc ++ [v]

/-- Defined from the spec words: the first-occurrence de-duplication of
a list. -/
def dedupFirst (l : List Str) : List Str := l.foldl keepFirst []

/-- Defined from the spec words: the union of trimmed non-empty bullets
preserving first-seen order with exact-string de-duplication. -/
def firstSeenUnion (l : List Str) : List Str :=
  dedupFirst ((l.map trimSpace).filter (fun v => v != []))

/-- Defined from the spec words: the non-empty trimmed headings in
first-seen order. -/
def firstSeenHeadings (ts : List Template) : List Str :=
  dedupFirst ((((ts.map Template.sections).flatten).map
    (fun s => trimSpace s.heading)).filter (fun h => h != []))

/-- The mergeBullets loop is the first-seen union fold, for any
membership-equivalent pair of seen-set and accumulator. -/
theorem dedupeTrim_foldl :
    ∀ (l seen acc : List Str), (∀ v, v ∈ seen ↔ v ∈ acc) →
      acc ++ dedupeTrim l seen
        = List.foldl keepFirst acc ((l.map trimSpace).filter (fun v => v != [])) := by
  intro l
  induction l with
  | nil => intro seen acc h; simp [dedupeTrim]
  | cons v rest ih =>
    intro seen acc hiff
    rw [List.map_cons]
    by_cases h2 : trimSpace v = []
    · rw [dedupeTrim, if_pos (Or.inl h2)]
      have hfil : ((trimSpace v :: (rest.map trimSpace)).filter (fun v => v != []))
          = (rest.map trimSpace).filter (fun v => v != []) := by
        simp [List.filter_cons, h2]
      rw [hfil]
      exact ih seen acc hiff
    · have hfil : ((trimSpace v :: (rest.map trimSpace)).filter (fun v => v != []))
          = trimSpace v :: (rest.map trimSpace).filter (fun v => v != []) := by
        simp [List.filter_cons, h2]
      rw [hfil, List.foldl_cons]
      by_cases h3 : trimSpace v ∈ seen
      · rw [dedupeTrim, if_pos (Or.inr h3)]
        have hk : keepFirst acc (trimSpace v) = acc := by
          unfold keepFirst
          rw [if_pos ((hiff _).mp h3)]
        rw [hk]
        exact ih seen acc hiff
      · rw [dedupeTrim, if_neg (by tauto)]
        have hk : keepFirst acc (trimSpace v) = acc ++ [trimSpace v] := by
          unfold keepFirst
          rw [if_neg (fun hc => h3 ((hiff _).mpr hc))]
        rw [hk]
        have hstep : acc ++ (trimSpace v :: dedupeTrim rest (trimSpace v :: seen))
            = (acc ++ [trimSpace v]) ++ dedupeTrim rest (trimSpace v :: seen) := by
          simp
        rw [hstep]
        refine ih (trimSpace v :: seen) (acc ++ [trimSpace v]) ?_
        intro x
        simp only [List.mem_cons, List.mem_append, List.mem_singleton]
        rw [hiff x]
        tauto

/-- The mergeBullets output has no duplicates, nothing already seen and
no empty bullet. -/
theorem dedupeTrim_props :
    ∀ (l seen : List Str), (dedupeTrim l seen).Nodup
      ∧ (∀ v ∈ dedupeTrim l seen, v ∉ seen ∧ v ≠ []) := by
  intro l
  induction l with
  | nil => intro seen; simp [dedupeTrim]
  | cons v rest ih =>
    intro seen
    by_cases h2 : trimSpace v = [] ∨ trimSpace v ∈ seen
    · rw [dedupeTrim, if_pos h2]; exact ih seen
    · rw [dedupeTrim, if_neg h2]
      push_neg at h2
      obtain ⟨hne, hnin⟩ := h2
      obtain ⟨ihn, ihm⟩ := ih (trimSpace v :: seen)
      constructor
      · refine List.nodup_cons.mpr ⟨?_, ihn⟩
        intro hc
        exact ((ihm _ hc).1) (List.mem_cons_self _ _)
      · intro x hx
        rcases List.mem_cons.mp hx with h1 | h1
        · subst h1; exact ⟨hnin, hne⟩
        · obtain ⟨ha, hb⟩ := ihm x h1
          exact ⟨fun hc => ha (List.mem_cons_of_mem _ hc), hb⟩

/-- Inserting a section leaves the trimmed-heading list unchanged when
the heading is already present, else appends it. -/
theorem insertSection_heads (s : MdSection) :
    ∀ (acc : List MdSection),
      (insertSection s acc).map (fun m => trimSpace m.heading)
        = keepFirst (acc.map (fun m => trimSpace m.heading)) (trimSpace s.heading) := by
  intro acc
  induction acc with
  | nil => simp [insertSection, keepFirst]
  | cons m rest ih =>
    have hstep : insertSection s (m :: rest)
        = if trimSpace m.heading = trimSpace s.heading then mergeSectionInto m s :: rest
          else m :: insertSection s rest := rfl
    rw [hstep]
    by_cases h : trimSpace m.heading = trimSpace s.heading
    · rw [if_pos h]
      simp only [List.map_cons]
      have hh : trimSpace (mergeSectionInto m s).heading = trimSpace m.heading := rfl
      rw [hh, keepFirst, if_pos (by rw [← h]; exact List.mem_cons_self _ _), h]
    · rw [if_neg h]
      simp only [List.map_cons]
      rw [ih]
      simp only [keepFirst]
      by_cases h4 : trimSpace s.heading ∈ rest.map (fun m => trimSpace m.heading)
      · rw [if_pos h4, if_pos (List.mem_cons_of_mem _ h4)]
      · rw [if_neg h4, if_neg (by
          intro hc
          rcases List.mem_cons.mp hc with hc1 | hc2
          · exact h hc1.symm
          · exact h4 hc2)]
        simp
  
/-- The mergeTemplates fold realizes the first-seen heading order. -/
theorem mergeFold_heads :
    ∀ (secs : List MdSection) (acc : List MdSection),
      (secs.foldl mergeOne acc).map (fun m => trimSpace m.heading)
        = List.foldl keepFirst (acc.map (fun m => trimSpace m.heading))
            ((secs.map (fun s => trimSpace s.heading)).filter (fun h => h != [])) := by
  intro secs
  induction secs with
  | nil => intro acc; simp
  | cons s rest ih =>
    intro acc
    rw [List.foldl_cons, List.map_cons]
    by_cases h : trimSpace s.heading = []
    · have hm : mergeOne acc s = acc := by simp only [mergeOne, if_pos h]
      have hfil : ((trimSpace s.heading :: (rest.map (fun s => trimSpace s.heading))).filter
            (fun h => h != []))
          = (rest.map (fun s => trimSpace s.heading)).filter (fun h => h != []) := by
        simp [List.filter_cons, h]
      rw [hm, hfil]
      exact ih acc
    · have hm : mergeOne acc s = insertSection s acc := by simp only [mergeOne, if_neg h]
      have hfil : ((trimSpace s.heading :: (rest.map (fun s => trimSpace s.heading))).filter
            (fun h => h != []))
          = trimSpace s.heading
            :: (rest.map (fun s => trimSpace s.heading)).filter (fun h => h != []) := by
        simp [List.filter_cons, h]
      rw [hm, hfil, List.foldl_cons, ih (insertSection s acc), insertSection_heads]

/-- C9: mergeTemplates merges by heading keeping first-seen heading
order (the merged trimmed-heading list is exactly the first-occurrence
de-duplication of all non-empty trimmed headings in template order);
for two sources sharing a heading the merged text keeps the first
non-empty text and appends a later non-empty text only when its trimmed
form differs, after a blank line; the merged bullets are the first-seen
union of both lists with whitespace-trimmed exact-string
de-duplication, empty bullets dropped, and no duplicates remain. -/
theorem mergeTemplates_section_merge :
    (∀ (ts : List Template) (sets : List Str),
      mergeTemplates ts sets = (mergeTitle ts sets, mergeSections ts))
  ∧ (∀ (ts : List Template),
      (mergeSections ts).map (fun m => trimSpace m.heading) = firstSeenHeadings ts)
  ∧ (∀ (m s : MdSection),
      (mergeSectionInto m s).heading = m.heading
      ∧ (mergeSectionInto m s).bullets = mergeBullets m.bullets s.bullets
      ∧ (trimSpace s.text = [] → (mergeSectionInto m s).text = m.text)
      ∧ (trimSpace s.text ≠ [] → trimSpace m.text = [] →
          (mergeSectionInto m s).text = s.text)
      ∧ (trimSpace s.text ≠ [] → trimSpace m.text ≠ [] →
          trimSpace m.text = trimSpace s.text → (mergeSectionInto m s).text = m.text)
      ∧ (trimSpace s.text ≠ [] → trimSpace m.text ≠ [] →
          trimSpace m.text ≠ trimSpace s.text →
          (mergeSectionInto m s).text = trimSpace m.text ++ str "\n\n" ++ trimSpace s.text))
  ∧ (∀ (a b : List Str), mergeBullets a b = firstSeenUnion (a ++ b))
  ∧ (∀ (a b : List Str), (mergeBullets a b).Nodup)
  ∧ (∀ (a b : List Str) (v : Str), v ∈ mergeBullets a b → v ≠ []) := by
  refine ⟨fun _ _ => rfl, ?_, ?_, ?_, ?_, ?_⟩
  · intro ts
    have h := mergeFold_heads ((ts.map Template.sections).flatten) []
    simpa [mergeSections, firstSeenHeadings, dedupFirst] using h
  · intro m s
    refine ⟨rfl, rfl, ?_, ?_, ?_, ?_⟩
    · intro h1
      show (if trimSpace s.text = [] then m.text
        else if trimSpace m.text = [] then s.text
        else if trimSpace m.text = trimSpace s.text then m.text
        else trimSpace m.text ++ str "\n\n" ++ trimSpace s.text) = m.text
      rw [if_pos h1]
    · intro h1 h2
      show (if trimSpace s.text = [] then m.text
        else if trimSpace m.text = [] then s.text
        else if trimSpace m.text = trimSpace s.text then m.text
        else trimSpace m.text ++ str "\n\n" ++ trimSpace s.text) = s.text
      rw [if_neg h1, if_pos h2]
    · intro h1 h2 h3
      show (if trimSpace s.text = [] then m.text
        else if trimSpace m.text = [] then s.text
        else if trimSpace m.text = trimSpace s.text then m.text
        else trimSpace m.text ++ str "\n\n" ++ trimSpace s.text) = m.text
      rw [if_neg h1, if_neg h2, if_pos h3]
    · intro h1 h2 h3
      show (if trimSpace s.text = [] then m.text
        else if trimSpace m.text = [] then s.text
        else if trimSpace m.text = trimSpace s.text then m.text
        else trimSpace m.text ++ str "\n\n" ++ trimSpace s.text)
        = trimSpace m.text ++ str "\n\n" ++ trimSpace s.text
      rw [if_neg h1, if_neg h2, if_neg h3]
  · intro a b
    have h := dedupeTrim_foldl (a ++ b) [] [] (by simp)
    simpa [mergeBullets, firstSeenUnion, dedupFirst] using h
  · intro a b
    exact (dedupeTrim_props (a ++ b) []).1
  · intro a b v hv
    exact ((dedupeTrim_props (a ++ b) []).2 v hv).2

/-- C9 witness: the shared-heading text rule at concrete sections with
different non-empty texts. -/
theorem mergeTemplates_section_merge_witness :
    (mergeSectionInto ⟨str "H", str "alpha", []⟩ ⟨str "H", str "beta", []⟩).text
      = trimSpace (str "alpha") ++ str "\n\n" ++ trimSpace (str "beta") :=
  ((mergeTemplates_section_merge.2.2.1 ⟨str "H", str "alpha", []⟩
    ⟨str "H", str "beta", []⟩).2.2.2.2.2) (by decide) (by decide) (by decide)
